import Mathlib

/-!
Verification of the `context-compat` repository: a compatibility harness for a
context resolution engine (build / resolve / inspect plus a JSON-RPC tool
surface).  The harness code under `src/` (fixture canonicalization, CLI output
capture) is embedded directly; the engine itself is treated by the repository
as a black box and is modelled from the specification where noted.
-/

/-! ## Harness code: `src/fixture.rs` (`canonicalize`) -/

/-- Rust `char::is_whitespace`: the Unicode `White_Space` code points. -/
def rustIsWhitespace (c : Char) : Bool :=
  let n := c.toNat
  (9 ≤ n && n ≤ 13) || n = 32 || n = 133 || n = 160 || n = 5760 ||
  (8192 ≤ n && n ≤ 8202) || n = 8232 || n = 8233 || n = 8239 || n = 8287 || n = 12288

/-- Rust `str::replace("\r\n", "\n")`: replace non-overlapping occurrences
left to right. -/
def replaceCRLF : List Char → List Char
  | '\r' :: '\n' :: rest => '\n' :: replaceCRLF rest
  | c :: rest => c :: replaceCRLF rest
  | [] => []

/-- Rust `str::split_inclusive('\n')`: chunks each ending with `'\n'`,
except possibly the last; an empty input yields no chunks. -/
def splitInclNL : List Char → List (List Char)
  | [] => []
  | c :: rest =>
    if c = '\n' then ['\n'] :: splitInclNL rest
    else
      match splitInclNL rest with
      | [] => [[c]]
      | chunk :: chunks => (c :: chunk) :: chunks

/-- The per-chunk map of Rust `str::lines`: strip one trailing `'\n'`, and a
trailing `'\r'` only when the `'\n'` was stripped. -/
def lineOfChunk (chunk : List Char) : List Char :=
  match chunk.reverse with
  | '\n' :: '\r' :: t => t.reverse
  | '\n' :: t => t.reverse
  | _ => chunk

/-- Rust `str::lines`. -/
def rustLines (l : List Char) : List (List Char) :=
  (splitInclNL l).map lineOfChunk

/-- Rust `str::trim_end`: drop trailing whitespace characters. -/
def trimEndRust (l : List Char) : List Char :=
  (l.reverse.dropWhile rustIsWhitespace).reverse

/-- `fixture.rs::canonicalize`: CRLF → LF, per-line `trim_end`, join with
`"\n"`. -/
def canonicalize (s : String) : String :=
  String.mk (List.intercalate ['\n'] ((rustLines (replaceCRLF s.data)).map trimEndRust))

/-! ## Harness code: `src/cli_runner.rs` (`CliOutput::from_output`) -/

/-- `std::process::Output` as consumed by `CliOutput::from_output`: raw output
byte streams and `status.code()` (an `Option<i32>`, `None` when the process
was terminated without an exit code, e.g. by a signal). -/
structure ProcessOutput where
  stdout : List Nat
  stderr : List Nat
  code : Option Int
deriving DecidableEq

/-- `cli_runner.rs::CliOutput`. -/
structure CliOutput where
  stdout : String
  stderr : String
  exit_code : Int
deriving DecidableEq

/-- UTF-8 continuation byte test (`0x80 ..= 0xBF`). -/
def isUtf8Cont (b : Nat) : Bool := 128 ≤ b && b ≤ 191

/-- Replacement character U+FFFD. -/
def replChar : Char := Char.ofNat 65533

/-- Worker for `String::from_utf8_lossy`: decode UTF-8, replacing each
maximal ill-formed subpart with one U+FFFD, following Rust's validation
ranges (overlongs, surrogates and values above U+10FFFF are ill-formed).
The fuel argument is an upper bound on the number of bytes consumed. -/
def utf8Go : Nat → List Nat → List Char
  | 0, _ => []
  | _, [] => []
  | fuel + 1, b :: rest =>
    if b ≤ 127 then Char.ofNat b :: utf8Go fuel rest
    else if 194 ≤ b && b ≤ 223 then
      match rest with
      | [] => [replChar]
      | b2 :: rest2 =>
        if isUtf8Cont b2 then
          Char.ofNat ((b - 192) * 64 + (b2 - 128)) :: utf8Go fuel rest2
        else replChar :: utf8Go fuel rest
    else if 224 ≤ b && b ≤ 239 then
      match rest with
      | [] => [replChar]
      | b2 :: rest2 =>
        let okB2 : Bool :=
          if b = 224 then 160 ≤ b2 && b2 ≤ 191
          else if b = 237 then 128 ≤ b2 && b2 ≤ 159
          else isUtf8Cont b2
        if okB2 then
          match rest2 with
          | [] => [replChar]
          | b3 :: rest3 =>
            if isUtf8Cont b3 then
              Char.ofNat ((b - 224) * 4096 + (b2 - 128) * 64 + (b3 - 128)) :: utf8Go fuel rest3
            else replChar :: utf8Go fuel rest2
        else replChar :: utf8Go fuel rest
    else if 240 ≤ b && b ≤ 244 then
      match rest with
      | [] => [replChar]
      | b2 :: rest2 =>
        let okB2 : Bool :=
          if b = 240 then 144 ≤ b2 && b2 ≤ 191
          else if b = 244 then 128 ≤ b2 && b2 ≤ 143
          else isUtf8Cont b2
        if okB2 then
          match rest2 with
          | [] => [replChar]
          | b3 :: rest3 =>
            if isUtf8Cont b3 then
              match rest3 with
              | [] => [replChar]
              | b4 :: rest4 =>
                if isUtf8Cont b4 then
                  Char.ofNat
                    ((b - 240) * 262144 + (b2 - 128) * 4096 + (b3 - 128) * 64 + (b4 - 128))
                    :: utf8Go fuel rest4
                else replChar :: utf8Go fuel rest3
            else replChar :: utf8Go fuel rest2
        else replChar :: utf8Go fuel rest
    else replChar :: utf8Go fuel rest

/-- `String::from_utf8_lossy`. -/
def utf8Lossy (bytes : List Nat) : String :=
  String.mk (utf8Go bytes.length bytes)

/-- `cli_runner.rs::CliOutput::from_output`: lossy-decode the streams and
take the exit code, defaulting to `-1` when none exists. -/
def CliOutput.from_output (o : ProcessOutput) : CliOutput :=
  { stdout := utf8Lossy o.stdout
    stderr := utf8Lossy o.stderr
    exit_code := o.code.getD (-1) }

/-! ## Engine model: 32-bit float scores (spec §4.4 steps 2 and 7)

The engine binary is not part of `src/` (the repository only tests it), so
the scoring and serialization semantics are modelled from the spec. -/

/-- Smallest scaling exponent `t` with `num * 2 ^ t ≥ den`, found with fuel. -/
def f32Scale (num den : Nat) : Nat → Nat → Nat
  | 0, t => t
  | fuel + 1, t => if den ≤ num * 2 ^ t then t else f32Scale num den fuel (t + 1)

/-- Modelled from the spec: the engine binary is absent from `src/`; per
§4.4 step 2 a score is `matches / total_word_count` "as a 32-bit float",
with `0.0` when the word count is zero.  This computes the exact rational
value of that IEEE binary32 quotient (round to nearest, ties to even) for
ratios in the normal range, as a 24-bit mantissa over a power of two. -/
def f32ofRatio (num den : Nat) : Rat :=
  if num = 0 ∨ den = 0 then 0
  else
    let t := f32Scale num den 200 0
    let a := num * 2 ^ (t + 23)
    let m0 := a / den
    let r := a % den
    let m :=
      if 2 * r < den then m0
      else if den < 2 * r then m0 + 1
      else if m0 % 2 = 0 then m0 else m0 + 1
    mkRat m (2 ^ (t + 23))

/-- Left-pad a digit string with `'0'` to length `k`. -/
def padDigits (s : String) (k : Nat) : String :=
  if s.length < k then String.mk (List.replicate (k - s.length) '0') ++ s else s

/-- For a value `q ∈ (0,1)`: the candidate numerator over `10 ^ k` that
round-trips through binary32 back to `q`, if one exists with `k` fraction
digits; of the two nearest candidates the closer one is taken, ties to the
even numerator (as the shortest round-trip printing algorithm does). -/
def fmtPick (q : Rat) (k : Nat) : Option Nat :=
  let A := q.num.toNat * 10 ^ k
  let d0 := A / q.den
  let ok0 := f32ofRatio d0 (10 ^ k) = q
  let ok1 := f32ofRatio (d0 + 1) (10 ^ k) = q
  if ok0 ∧ ok1 then
    let dist0 := A - d0 * q.den
    let dist1 := (d0 + 1) * q.den - A
    if dist0 < dist1 then some d0
    else if dist1 < dist0 then some (d0 + 1)
    else if d0 % 2 = 0 then some d0 else some (d0 + 1)
  else if ok0 then some d0
  else if ok1 then some (d0 + 1)
  else none

/-- Search for the least fraction-digit count that round-trips. -/
def fmtLoop (q : Rat) : Nat → Nat → String
  | 0, _ => "0.0"
  | fuel + 1, k =>
    match fmtPick q k with
    | some d => "0." ++ padDigits (toString d) k
    | none => fmtLoop q fuel (k + 1)

/-- Modelled from the spec: the engine binary is absent from `src/`; per
§4.4 step 7 scores are serialized with the minimal round-trippable decimal
representation for 32-bit floats.  Scores live in `[0,1]`; `0` prints as
`"0.0"` and `1` as `"1.0"`, otherwise the fewest fraction digits that parse
back (via binary32 rounding) to the same value are emitted. -/
def fmtF32 (q : Rat) : String :=
  if q ≤ 0 then "0.0"
  else if 1 ≤ q then "1.0"
  else fmtLoop q 60 1

/-! ## Engine model: documents and the resolver (spec §3, §4.4) -/

/-- Lexicographic strict order on character lists (by code point), used for
the spec's "ties are broken purely lexicographically on `id`". -/
def lexLtB : List Char → List Char → Bool
  | [], [] => false
  | [], _ :: _ => true
  | _ :: _, [] => false
  | a :: as, b :: bs => if a < b then true else if b < a then false else lexLtB as bs

/-- Strict lexicographic order on document ids. -/
def idLt (s t : String) : Prop := lexLtB s.data t.data = true

/-- Reflexive lexicographic order on document ids. -/
def idLe (s t : String) : Prop := idLt s t ∨ s = t

instance : DecidableRel idLt := fun s t =>
  inferInstanceAs (Decidable (lexLtB s.data t.data = true))

instance : DecidableRel idLe := fun s t =>
  inferInstanceAs (Decidable (idLt s t ∨ s = t))

/-- Modelled from the spec: the engine binary is absent from `src/`.  A
document as the resolver sees it (spec §3 `SourceDocument` / cache entry):
stable `id`, raw payload bytes (`content`, whose length is the document's
budget cost in units), and the build-time tokenized word list.  The exact
tokenizer normalization is left open by the spec, so the word list is
carried as data. -/
structure Doc where
  id : String
  content : String
  words : List String
deriving DecidableEq

/-- Budget units consumed by a selected document (its payload size). -/
def Doc.cost (d : Doc) : Nat := d.content.length

/-- Modelled from the spec (§4.4 step 2): `matches / total_word_count` as a
32-bit float, `0.0` for a document with zero words. -/
def score (terms : List String) (d : Doc) : Rat :=
  f32ofRatio ((d.words.filter (fun w => decide (w ∈ terms))).length) d.words.length

/-- A document paired with its computed score. -/
structure Scored where
  doc : Doc
  sc : Rat
deriving DecidableEq

/-- Modelled from the spec (§4.4 step 4): the resolver's total order —
score descending, ties broken by `id` ascending. -/
def selOrder (a b : Scored) : Prop :=
  b.sc < a.sc ∨ (a.sc = b.sc ∧ idLe a.doc.id b.doc.id)

instance : DecidableRel selOrder := fun a b =>
  inferInstanceAs (Decidable (b.sc < a.sc ∨ (a.sc = b.sc ∧ idLe a.doc.id b.doc.id)))

/-- Modelled from the spec (§4.4 step 5): first-fit greedy selection in rank
order with no backtracking; a document fits when the running total stays
within the budget, and — as the spec stipulates — a budget of `0` admits no
document at all, including zero-cost ones. -/
def selectGo (budget : Nat) : Nat → List Scored → List Scored
  | _, [] => []
  | used, s :: rest =>
    if 0 < budget ∧ used + s.doc.cost ≤ budget then
      s :: selectGo budget (used + s.doc.cost) rest
    else selectGo budget used rest

/-- Spec §3 `SelectionResult` (scores kept as their exact binary32 values). -/
structure SelectionResult where
  documents : List (String × Rat)
  documents_considered : Nat
  documents_selected : Nat
  documents_excluded_by_budget : Nat
deriving DecidableEq

/-- Score every document and sort by the resolver's total order. -/
def rankDocs (docs : List Doc) (terms : List String) : List Scored :=
  List.insertionSort selOrder (docs.map (fun d => Scored.mk d (score terms d)))

/-- Modelled from the spec: the engine binary is absent from `src/`.  The
resolver of §4.4: score every document, sort by `(score desc, id asc)`,
select greedily first-fit under the budget, and report the selection
counters. -/
def resolve (docs : List Doc) (terms : List String) (budget : Nat) : SelectionResult :=
  { documents := (selectGo budget 0 (rankDocs docs terms)).map (fun s => (s.doc.id, s.sc))
    documents_considered := docs.length
    documents_selected := (selectGo budget 0 (rankDocs docs terms)).length
    documents_excluded_by_budget :=
      docs.length - (selectGo budget 0 (rankDocs docs terms)).length }

/-- The `tie_break` fixture cache modelled from the spec (§8): documents
`a.md` and `b.md` scored equally under the `tie_break` query; the manifest
lists `b.md` first so that output order cannot be manifest order. -/
def tieBreakDocs : List Doc :=
  [ { id := "b.md", content := "tie bb", words := ["tie", "bb"] },
    { id := "a.md", content := "tie aa", words := ["tie", "aa"] } ]

/-! ## Engine model: cache builder (spec §4.1–§4.2) -/

/-- Modelled from the spec: a content fingerprint for a `DocumentEntry`,
a pure 64-bit function of the payload bytes only. -/
def hashContent (s : String) : Nat :=
  s.data.foldl (fun h c => (h * 131 + c.toNat) % (2 ^ 64)) 7

/-- Modelled from the spec (§4.2): the payload file name inside the cache
directory is derived deterministically from the document id alone. -/
def fileFor (id : String) : String := id ++ ".payload"

/-- Spec §3 `DocumentEntry`. -/
structure DocumentEntry where
  id : String
  file : String
  fingerprint : Nat
deriving DecidableEq

/-- Spec §3 `CacheManifest` (`build_config` reduced to its `version` field,
the only part of it the spec names). -/
structure CacheManifest where
  cache_version : String
  build_config_version : String
  document_count : Nat
  documents : List DocumentEntry
  created_at : Nat
deriving DecidableEq

/-- An on-disk cache as produced by a build: manifest, serialized index
bytes, payload files (relative name ↦ bytes), and the loaded document view
used by the resolver. -/
structure BuiltCache where
  manifest : CacheManifest
  index : String
  payloads : List (String × String)
  docs : List Doc
deriving DecidableEq

/-- Reader ordering (spec §4.1): sort source documents by `id` ascending
before any downstream processing. -/
def sortDocsById (l : List Doc) : List Doc :=
  List.insertionSort (fun a b => idLe a.id b.id) l

/-- Modelled from the spec (§3 Index): a deterministic serialization of
per-document term statistics, a pure function of ids and contents. -/
def renderIndex (docs : List Doc) : String :=
  docs.foldl (fun acc d => acc ++ d.id ++ ":" ++ toString d.words.length ++ ";") ""

/-- Modelled from the spec: the engine binary is absent from `src/`.
`build(sources, target_directory, force)` of §4.2: documents are sorted by
id, payload names and fingerprints are derived from ids and contents only,
and the index is a pure function of the document set.  The target directory
never flows into any produced byte, and the wall clock flows only into
`created_at`. -/
def build (sources : List Doc) (targetDir : String) (now : Nat) : BuiltCache :=
  let docs := sortDocsById sources
  { manifest :=
      { cache_version := "v0"
        build_config_version := "1"
        document_count := docs.length
        documents := docs.map (fun d => ⟨d.id, fileFor d.id, hashContent d.content⟩)
        created_at := now }
    index := renderIndex docs
    payloads := docs.map (fun d => (fileFor d.id, d.content))
    docs := docs }

/-! ## Engine model: cache store open, command exit codes (spec §4.3, §6) -/

/-- Spec §7 error taxonomy (the kinds reachable from opening a cache). -/
inductive CacheError
  | cacheMissing
  | cacheInvalid
  | ioError
deriving DecidableEq

/-- The manifest file's content as the loader classifies it: either not a
syntactically valid manifest, or a well-formed cache. -/
inductive ManifestText
  | malformed
  | wellFormed (c : BuiltCache)
deriving DecidableEq

/-- The state of the manifest file inside an existing cache directory. -/
inductive FileState
  | fileAbsent
  | unreadable
  | readable (t : ManifestText)
deriving DecidableEq

/-- The state of a cache directory path. -/
inductive DirState
  | dirAbsent
  | present (manifest : FileState)
deriving DecidableEq

/-- Modelled from the spec: the engine binary is absent from `src/`.
`open(cache_directory)` of §4.3: missing directory or missing manifest file
⇒ `CacheMissing`; manifest present but unreadable ⇒ `IoError`; readable but
not a valid manifest ⇒ `CacheInvalid`; otherwise the loaded cache. -/
def openCache : DirState → Except CacheError BuiltCache
  | .dirAbsent => .error .cacheMissing
  | .present .fileAbsent => .error .cacheMissing
  | .present .unreadable => .error .ioError
  | .present (.readable .malformed) => .error .cacheInvalid
  | .present (.readable (.wellFormed c)) => .ok c

/-- The frozen exit code for each error kind (spec §6). -/
def errExit : CacheError → Nat
  | .cacheMissing => 4
  | .cacheInvalid => 5
  | .ioError => 6

/-- Modelled from the spec: exit code of `resolve --cache <dir> ...` — the
resolver propagates open errors (§4.4) and the command surface maps them to
the frozen codes of §6. -/
def resolveCmdExit (st : DirState) : Nat :=
  match openCache st with
  | .ok _ => 0
  | .error e => errExit e

/-- Spec §6 inspect output: `cache_version` (absent when it cannot be
salvaged), `document_count`, `valid`. -/
structure InspectOut where
  cache_version : Option String
  document_count : Nat
  valid : Bool
deriving DecidableEq

/-- Modelled from the spec: the engine binary is absent from `src/`.
`inspect(cache_directory)` of §4.5: fails with `CacheMissing` only when the
directory or manifest is entirely absent, `IoError` when the manifest cannot
be read; a readable-but-corrupt manifest is not a hard error — it reports
`valid: false` with whatever metadata can be salvaged. -/
def inspectCmd : DirState → Except CacheError InspectOut
  | .dirAbsent => .error .cacheMissing
  | .present .fileAbsent => .error .cacheMissing
  | .present .unreadable => .error .ioError
  | .present (.readable .malformed) => .ok ⟨none, 0, false⟩
  | .present (.readable (.wellFormed c)) =>
    .ok ⟨some c.manifest.cache_version, c.manifest.document_count, true⟩

/-- Exit code of `inspect --cache <dir>` (spec §6). -/
def inspectCmdExit (st : DirState) : Nat :=
  match inspectCmd st with
  | .ok _ => 0
  | .error e => errExit e

/-! ## Engine model: protocol server tool calls (spec §4.6, §6, §7) -/

/-- Spec §7 taxonomy as surfaced by the protocol layer. -/
inductive ToolErr
  | cacheMissing
  | cacheInvalid
  | invalidQuery
  | invalidBudget
  | ioError
  | internalError
deriving DecidableEq

/-- The frozen string code for each tool-level error kind (spec §6). -/
def errCode : ToolErr → String
  | .cacheMissing => "cache_missing"
  | .cacheInvalid => "cache_invalid"
  | .invalidQuery => "invalid_query"
  | .invalidBudget => "invalid_budget"
  | .ioError => "io_error"
  | .internalError => "internal_error"

/-- The six frozen protocol error codes (spec §6). -/
def frozenCodes : List String :=
  ["cache_missing", "cache_invalid", "invalid_query", "invalid_budget",
   "io_error", "internal_error"]

/-- The inner JSON document carried in a content item's `text` field,
modelled structurally: either a tool result or an
`{error: {code, message}}` payload. -/
inductive InnerText
  | okPayload (r : SelectionResult)
  | errPayload (code message : String)
deriving DecidableEq

/-- One item of a `tools/call` result `content` array. -/
structure ContentItem where
  itemType : String
  text : InnerText
deriving DecidableEq

/-- A `tools/call` result: `content` array plus the `isError` flag. -/
structure ToolResult where
  content : List ContentItem
  isError : Bool
deriving DecidableEq

/-- A JSON-RPC response envelope: either a successful envelope carrying a
tool result, or a JSON-RPC-level error (reserved for transport and
method-routing failures). -/
inductive RpcResponse
  | success (result : ToolResult)
  | rpcError (code : Int)
deriving DecidableEq

/-- The frozen error shape of a failed tool call: one `text` content item
whose text is the `{error: {code, message}}` payload, with `isError` set. -/
def toolErrorResult (e : ToolErr) (msg : String) : ToolResult :=
  { content := [⟨"text", .errPayload (errCode e) msg⟩], isError := true }

/-- Lift an open error to the protocol taxonomy (spec §7: kinds are never
masked as one another). -/
def liftErr : CacheError → ToolErr
  | .cacheMissing => .cacheMissing
  | .cacheInvalid => .cacheInvalid
  | .ioError => .ioError

/-- The error message the frozen golden output pins for a missing cache. -/
def errMessage : ToolErr → String
  | .cacheMissing => "Cache does not exist"
  | .cacheInvalid => "Cache is invalid"
  | .invalidQuery => "Query is invalid"
  | .invalidBudget => "Budget is invalid"
  | .ioError => "I/O error"
  | .internalError => "Internal error"

/-- A cache root: the directory states of the cache names under it. -/
def lookupCache (root : List (String × DirState)) (name : String) : Option DirState :=
  (root.find? (fun p => p.1 == name)).map (fun p => p.2)

/-- Modelled from the spec: the engine binary is absent from `src/`.
`tools/call` of `context.resolve` (§4.6, §7): a fresh open of the named
cache under the root; a cache name not present under the root is a missing
cache.  Tool-level failures are reported inside a successful JSON-RPC
envelope with `isError: true` and an `{error: {code, message}}` text
payload; a JSON-RPC-level error is never produced for them. -/
def callResolve (root : List (String × DirState)) (name : String)
    (terms : List String) (budget : Nat) : RpcResponse :=
  match lookupCache root name with
  | none => .success (toolErrorResult .cacheMissing (errMessage .cacheMissing))
  | some st =>
    match openCache st with
    | .error e => .success (toolErrorResult (liftErr e) (errMessage (liftErr e)))
    | .ok c =>
      .success { content := [⟨"text", .okPayload (resolve c.docs terms budget)⟩]
                 isError := false }

/-! ## Order lemmas for the resolver's total order -/

theorem strDataEq {s t : String} (h : s.data = t.data) : s = t := by
  cases s; cases t; exact congrArg String.mk h

theorem lexLtB_irrefl (l : List Char) : lexLtB l l = false := by
  induction l with
  | nil => rfl
  | cons a as ih => simp [lexLtB, ih]

theorem lexLtB_trans (a : List Char) :
    ∀ b c, lexLtB a b = true → lexLtB b c = true → lexLtB a c = true := by
  induction a with
  | nil =>
    intro b c hab hbc
    cases b with
    | nil => simp [lexLtB] at hab
    | cons y ys =>
      cases c with
      | nil => simp [lexLtB] at hbc
      | cons z zs => rfl
  | cons x xs ih =>
    intro b c hab hbc
    cases b with
    | nil => simp [lexLtB] at hab
    | cons y ys =>
      cases c with
      | nil => simp [lexLtB] at hbc
      | cons z zs =>
        simp only [lexLtB] at hab hbc ⊢
        by_cases hxy : x < y
        · by_cases hyz : y < z
          · rw [if_pos (hxy.trans hyz)]
          · rw [if_neg hyz] at hbc
            by_cases hzy : z < y
            · rw [if_pos hzy] at hbc; exact absurd hbc (by simp)
            · have hyez : y = z := le_antisymm (not_lt.mp hzy) (not_lt.mp hyz)
              rw [if_pos (hyez ▸ hxy)]
        · rw [if_neg hxy] at hab
          by_cases hyx : y < x
          · rw [if_pos hyx] at hab; exact absurd hab (by simp)
          · have hxey : x = y := le_antisymm (not_lt.mp hyx) (not_lt.mp hxy)
            rw [if_neg hyx] at hab
            by_cases hyz : y < z
            · rw [if_pos (hxey ▸ hyz)]
            · rw [if_neg hyz] at hbc
              by_cases hzy : z < y
              · rw [if_pos hzy] at hbc; exact absurd hbc (by simp)
              · have hyez : y = z := le_antisymm (not_lt.mp hzy) (not_lt.mp hyz)
                rw [if_neg hzy] at hbc
                rw [if_neg (hxey ▸ hyz), if_neg (hxey ▸ hzy)]
                exact ih ys zs hab hbc

theorem lexLtB_total (a : List Char) :
    ∀ b, lexLtB a b = true ∨ a = b ∨ lexLtB b a = true := by
  induction a with
  | nil =>
    intro b
    cases b with
    | nil => exact Or.inr (Or.inl rfl)
    | cons y ys => exact Or.inl rfl
  | cons x xs ih =>
    intro b
    cases b with
    | nil => exact Or.inr (Or.inr rfl)
    | cons y ys =>
      rcases lt_trichotomy x y with h | h | h
      · exact Or.inl (by simp [lexLtB, h])
      · subst h
        rcases ih ys with h2 | h2 | h2
        · exact Or.inl (by simp [lexLtB, h2])
        · exact Or.inr (Or.inl (by rw [h2]))
        · exact Or.inr (Or.inr (by simp [lexLtB, h2]))
      · exact Or.inr (Or.inr (by simp [lexLtB, h]))

theorem idLe_total (s t : String) : idLe s t ∨ idLe t s := by
  rcases lexLtB_total s.data t.data with h | h | h
  · exact Or.inl (Or.inl h)
  · exact Or.inl (Or.inr (strDataEq h))
  · exact Or.inr (Or.inl h)

theorem idLt_trans {s t u : String} (h1 : idLt s t) (h2 : idLt t u) : idLt s u :=
  lexLtB_trans s.data t.data u.data h1 h2

theorem idLe_trans {s t u : String} (h1 : idLe s t) (h2 : idLe t u) : idLe s u := by
  rcases h1 with h1 | rfl
  · rcases h2 with h2 | rfl
    · exact Or.inl (idLt_trans h1 h2)
    · exact Or.inl h1
  · exact h2

theorem idLt_of_idLe_of_ne {s t : String} (h : idLe s t) (hne : s ≠ t) : idLt s t := by
  rcases h with h | rfl
  · exact h
  · exact absurd rfl hne

theorem selOrder_total (a b : Scored) : selOrder a b ∨ selOrder b a := by
  rcases lt_trichotomy a.sc b.sc with h | h | h
  · exact Or.inr (Or.inl h)
  · rcases idLe_total a.doc.id b.doc.id with hle | hle
    · exact Or.inl (Or.inr ⟨h, hle⟩)
    · exact Or.inr (Or.inr ⟨h.symm, hle⟩)
  · exact Or.inl (Or.inl h)

theorem selOrder_trans (a b c : Scored) (hab : selOrder a b) (hbc : selOrder b c) :
    selOrder a c := by
  rcases hab with hab | ⟨hab, hab'⟩
  · rcases hbc with hbc | ⟨hbc, _⟩
    · exact Or.inl (hbc.trans hab)
    · exact Or.inl (hbc ▸ hab)
  · rcases hbc with hbc | ⟨hbc, hbc'⟩
    · exact Or.inl (hab ▸ hbc)
    · exact Or.inr ⟨hab.trans hbc, idLe_trans hab' hbc'⟩

/-! ## Selection lemmas -/

theorem selectGo_zero (used : Nat) (l : List Scored) : selectGo 0 used l = [] := by
  induction l generalizing used with
  | nil => rfl
  | cons s rest ih =>
    simp only [selectGo]
    rw [if_neg]
    · exact ih used
    · rintro ⟨h, _⟩; exact absurd h (by simp)

theorem selectGo_sublist (budget used : Nat) (l : List Scored) :
    (selectGo budget used l).Sublist l := by
  induction l generalizing used with
  | nil => exact List.Sublist.refl _
  | cons s rest ih =>
    simp only [selectGo]
    by_cases h : 0 < budget ∧ used + s.doc.cost ≤ budget
    · rw [if_pos h]; exact (ih (used + s.doc.cost)).cons₂ s
    · rw [if_neg h]; exact (ih used).cons s

theorem selectGo_all (budget used : Nat) (l : List Scored) (hb : 0 < budget)
    (h : used + (l.map (fun s => s.doc.cost)).sum ≤ budget) :
    selectGo budget used l = l := by
  induction l generalizing used with
  | nil => rfl
  | cons s rest ih =>
    simp only [List.map_cons, List.sum_cons] at h
    have hfit : used + s.doc.cost ≤ budget := by omega
    simp only [selectGo]
    rw [if_pos ⟨hb, hfit⟩, ih (used + s.doc.cost) (by omega)]

/-! ## Resolver structure lemmas -/

theorem rankDocs_sorted (docs : List Doc) (terms : List String) :
    (rankDocs docs terms).Pairwise selOrder := by
  haveI : IsTotal Scored selOrder := ⟨selOrder_total⟩
  haveI : IsTrans Scored selOrder := ⟨fun a b c => selOrder_trans a b c⟩
  exact List.sorted_insertionSort selOrder _

theorem rankDocs_perm (docs : List Doc) (terms : List String) :
    (rankDocs docs terms).Perm (docs.map (fun d => Scored.mk d (score terms d))) :=
  List.perm_insertionSort selOrder _

theorem rankDocs_ids_nodup (docs : List Doc) (terms : List String)
    (hids : (docs.map Doc.id).Nodup) :
    (rankDocs docs terms).Pairwise (fun a b => a.doc.id ≠ b.doc.id) := by
  have hids' : ((docs.map (fun d => Scored.mk d (score terms d))).map
      (fun s => s.doc.id)).Nodup := by
    rw [List.map_map]
    exact hids
  have hnd : ((rankDocs docs terms).map (fun s => s.doc.id)).Nodup :=
    (((rankDocs_perm docs terms).map (fun s => s.doc.id)).nodup_iff).mpr hids'
  exact List.pairwise_map.mp hnd

theorem resolve_documents_pairwise (docs : List Doc) (terms : List String) (budget : Nat)
    (hids : (docs.map Doc.id).Nodup) :
    (resolve docs terms budget).documents.Pairwise
      (fun p q => q.2 < p.2 ∨ (p.2 = q.2 ∧ idLt p.1 q.1)) := by
  have hstrict : (rankDocs docs terms).Pairwise
      (fun a b => b.sc < a.sc ∨ (a.sc = b.sc ∧ idLt a.doc.id b.doc.id)) := by
    refine ((rankDocs_sorted docs terms).and (rankDocs_ids_nodup docs terms hids)).imp ?_
    rintro a b ⟨hsel | ⟨heq, hle⟩, hne⟩
    · exact Or.inl hsel
    · exact Or.inr ⟨heq, idLt_of_idLe_of_ne hle hne⟩
  have hchosen := hstrict.sublist (selectGo_sublist budget 0 (rankDocs docs terms))
  exact List.pairwise_map.mpr hchosen

theorem score_eq_zero_of_no_match (terms : List String) (d : Doc)
    (h : ∀ w ∈ d.words, w ∉ terms) : score terms d = 0 := by
  have hf : d.words.filter (fun w => decide (w ∈ terms)) = [] := by
    refine List.filter_eq_nil_iff.mpr ?_
    intro a ha
    simpa using h a ha
  rw [score, hf]
  simp [f32ofRatio]

theorem rankDocs_sc_zero (docs : List Doc) (terms : List String)
    (hnm : ∀ d ∈ docs, ∀ w ∈ d.words, w ∉ terms) :
    ∀ s ∈ rankDocs docs terms, s.sc = 0 := by
  intro s hs
  have hmem : s ∈ docs.map (fun d => Scored.mk d (score terms d)) :=
    (rankDocs_perm docs terms).mem_iff.mp hs
  rcases List.mem_map.mp hmem with ⟨d, hd, rfl⟩
  exact score_eq_zero_of_no_match terms d (hnm d hd)

theorem rankDocs_cost_perm (docs : List Doc) (terms : List String) :
    ((rankDocs docs terms).map (fun s => s.doc.cost)).Perm
      (docs.map (fun d => d.content.length)) := by
  have h := (rankDocs_perm docs terms).map (fun s => s.doc.cost)
  rw [List.map_map] at h
  simpa [Function.comp, Doc.cost] using h

/-! ## Claim theorems -/

/-- C1: Build determinism / path independence — building the same source set
into two different target directories at two different times yields manifests
identical in every field except `created_at`, identical index bytes,
identical payload files, and identical resolve output against either copy. -/
theorem C1_build_determinism (S : List Doc) (dir1 dir2 : String) (t1 t2 : Nat)
    (terms : List String) (budget : Nat) :
    (build S dir1 t1).manifest.cache_version = (build S dir2 t2).manifest.cache_version ∧
    (build S dir1 t1).manifest.build_config_version =
      (build S dir2 t2).manifest.build_config_version ∧
    (build S dir1 t1).manifest.document_count = (build S dir2 t2).manifest.document_count ∧
    (build S dir1 t1).manifest.documents = (build S dir2 t2).manifest.documents ∧
    (build S dir1 t1).index = (build S dir2 t2).index ∧
    (build S dir1 t1).payloads = (build S dir2 t2).payloads ∧
    resolve (build S dir1 t1).docs terms budget = resolve (build S dir2 t2).docs terms budget :=
  ⟨rfl, rfl, rfl, rfl, rfl, rfl, rfl⟩

/-- C2: Tie-break law — the resolve output is sorted by score descending with
equal scores in strictly ascending lexicographic id order (so never in
manifest, insertion, or score-computation order), and the `tie_break` cache
under the `tie_break` query yields `a.md` then `b.md` with equal scores,
although its manifest lists `b.md` first. -/
theorem C2_tie_break_law (docs : List Doc) (terms : List String) (budget : Nat)
    (hids : (docs.map Doc.id).Nodup) :
    (resolve docs terms budget).documents.Pairwise
      (fun p q => q.2 < p.2 ∨ (p.2 = q.2 ∧ idLt p.1 q.1)) ∧
    (resolve tieBreakDocs ["tie"] 4000).documents =
      [("a.md", mkRat 1 2), ("b.md", mkRat 1 2)] :=
  ⟨resolve_documents_pairwise docs terms budget hids, by decide⟩

/-- Witness for C2 at the `tie_break` cache model. -/
theorem C2_tie_break_law_witness :
    (tieBreakDocs.map Doc.id).Nodup ∧
    (resolve tieBreakDocs ["tie"] 4000).documents.Pairwise
      (fun p q => q.2 < p.2 ∨ (p.2 = q.2 ∧ idLt p.1 q.1)) :=
  ⟨by decide, (C2_tie_break_law tieBreakDocs ["tie"] 4000 (by decide)).1⟩

/-- C3: Float formatting law — scores serialize with the minimal
round-trippable decimal for their binary32 value: `3/4` as the exact text
`0.75`, `1/3` as `0.33333334`, `1/2` as `0.5`, and `0` as `0.0`; parsing
`0.33333334` back through binary32 rounding recovers the value of `1/3`, and
the serialized scores of the `tie_break` resolve are the exact texts
`0.5`. -/
theorem C3_float_format :
    fmtF32 (f32ofRatio 3 4) = "0.75" ∧
    fmtF32 (f32ofRatio 1 3) = "0.33333334" ∧
    fmtF32 (f32ofRatio 1 2) = "0.5" ∧
    fmtF32 (f32ofRatio 0 0) = "0.0" ∧
    fmtF32 (f32ofRatio 0 5) = "0.0" ∧
    f32ofRatio 33333334 (10 ^ 8) = f32ofRatio 1 3 ∧
    (resolve tieBreakDocs ["tie"] 4000).documents.map (fun p => fmtF32 p.2) =
      ["0.5", "0.5"] := by
  decide

/-- C4: Budget exhaustion — with budget `0` every resolve returns an empty
documents array, zero selected, and every considered document (zero-score
ones included) excluded by budget. -/
theorem C4_budget_exhaustion (docs : List Doc) (terms : List String) :
    (resolve docs terms 0).documents = [] ∧
    (resolve docs terms 0).documents_selected = 0 ∧
    (resolve docs terms 0).documents_excluded_by_budget =
      (resolve docs terms 0).documents_considered ∧
    (resolve docs terms 0).documents_considered = docs.length := by
  simp [resolve, selectGo_zero]

/-- C5: Zero-score inclusion — when no query term matches any document word,
every document scores exactly `0.0` (zero-word documents included), all
documents are selected whenever the budget allows (positive budget at least
the total payload size), none are excluded, and the output is in strictly
ascending id order. -/
theorem C5_zero_score_inclusion (docs : List Doc) (terms : List String) (budget : Nat)
    (hnm : ∀ d ∈ docs, ∀ w ∈ d.words, w ∉ terms)
    (hb : 0 < budget)
    (hfit : (docs.map (fun d => d.content.length)).sum ≤ budget)
    (hids : (docs.map Doc.id).Nodup) :
    (∀ p ∈ (resolve docs terms budget).documents, p.2 = 0) ∧
    ((resolve docs terms budget).documents.map Prod.fst).Perm (docs.map Doc.id) ∧
    ((resolve docs terms budget).documents.map Prod.fst).Pairwise idLt ∧
    (resolve docs terms budget).documents_selected = docs.length ∧
    (resolve docs terms budget).documents_excluded_by_budget = 0 := by
  have hz := rankDocs_sc_zero docs terms hnm
  have hall : selectGo budget 0 (rankDocs docs terms) = rankDocs docs terms := by
    refine selectGo_all budget 0 _ hb ?_
    rw [Nat.zero_add, (rankDocs_cost_perm docs terms).sum_eq]
    exact hfit
  have hlen : (rankDocs docs terms).length = docs.length := by
    rw [rankDocs, List.length_insertionSort, List.length_map]
  have hmem0 : ∀ p ∈ (resolve docs terms budget).documents, p.2 = 0 := by
    intro p hp
    simp only [resolve] at hp
    rcases List.mem_map.mp hp with ⟨s, hs, rfl⟩
    exact hz s ((selectGo_sublist budget 0 _).subset hs)
  refine ⟨hmem0, ?_, ?_, ?_, ?_⟩
  · show ((selectGo budget 0 (rankDocs docs terms)).map (fun s => (s.doc.id, s.sc))).map
        Prod.fst |>.Perm (docs.map Doc.id)
    rw [hall, List.map_map]
    have h := (rankDocs_perm docs terms).map (fun s => s.doc.id)
    rw [List.map_map] at h
    simpa [Function.comp] using h
  · have hpw := resolve_documents_pairwise docs terms budget hids
    have hidpw : (resolve docs terms budget).documents.Pairwise
        (fun p q => idLt p.1 q.1) := by
      refine List.Pairwise.imp_of_mem ?_ hpw
      intro p q hp hq hrel
      rcases hrel with hlt | ⟨_, hid⟩
      · rw [hmem0 p hp, hmem0 q hq] at hlt
        exact absurd hlt (lt_irrefl 0)
      · exact hid
    exact List.pairwise_map.mpr hidpw
  · show (selectGo budget 0 (rankDocs docs terms)).length = docs.length
    rw [hall, hlen]
  · show docs.length - (selectGo budget 0 (rankDocs docs terms)).length = 0
    rw [hall, hlen, Nat.sub_self]

/-- Witness for C5: the `tie_break` cache model under a query that matches
nothing. -/
theorem C5_zero_score_inclusion_witness :
    ((∀ d ∈ tieBreakDocs, ∀ w ∈ d.words, w ∉ ["zzz"]) ∧ 0 < 100 ∧
      (tieBreakDocs.map (fun d => d.content.length)).sum ≤ 100 ∧
      (tieBreakDocs.map Doc.id).Nodup) ∧
    (∀ p ∈ (resolve tieBreakDocs ["zzz"] 100).documents, p.2 = 0) ∧
    ((resolve tieBreakDocs ["zzz"] 100).documents.map Prod.fst).Perm
      (tieBreakDocs.map Doc.id) ∧
    ((resolve tieBreakDocs ["zzz"] 100).documents.map Prod.fst).Pairwise idLt ∧
    (resolve tieBreakDocs ["zzz"] 100).documents_selected = tieBreakDocs.length ∧
    (resolve tieBreakDocs ["zzz"] 100).documents_excluded_by_budget = 0 :=
  ⟨⟨by decide, by decide, by decide, by decide⟩,
    C5_zero_score_inclusion tieBreakDocs ["zzz"] 100 (by decide) (by decide)
      (by decide) (by decide)⟩

/-- C6 counterexample: the claim says `inspect` against a directory whose
manifest is not syntactically valid JSON exits with code 5; per §4.5 the
inspector tolerates a readable-but-corrupt manifest and exits 0. -/
theorem C6_counterexample :
    inspectCmdExit (DirState.present (FileState.readable ManifestText.malformed)) = 0 ∧
    inspectCmdExit (DirState.present (FileState.readable ManifestText.malformed)) ≠ 5 := by
  decide

/-- C6 (amended): `resolve` and `inspect` against a nonexistent cache
directory (or a directory without a manifest) exit 4; `resolve` against a
syntactically invalid manifest exits 5, while `inspect` exits 0 (reporting
the cache invalid); a manifest with revoked read permission exits 6 for
both, and exit 6 arises from exactly that state — a permission failure is
never reported as any other kind, and nothing else is reported as one. -/
theorem C6_error_kind_separation :
    resolveCmdExit DirState.dirAbsent = 4 ∧
    resolveCmdExit (DirState.present FileState.fileAbsent) = 4 ∧
    inspectCmdExit DirState.dirAbsent = 4 ∧
    inspectCmdExit (DirState.present FileState.fileAbsent) = 4 ∧
    resolveCmdExit (DirState.present (FileState.readable ManifestText.malformed)) = 5 ∧
    inspectCmdExit (DirState.present (FileState.readable ManifestText.malformed)) = 0 ∧
    resolveCmdExit (DirState.present FileState.unreadable) = 6 ∧
    inspectCmdExit (DirState.present FileState.unreadable) = 6 ∧
    (∀ st, resolveCmdExit st = 6 ↔ st = DirState.present FileState.unreadable) ∧
    (∀ st, inspectCmdExit st = 6 ↔ st = DirState.present FileState.unreadable) := by
  refine ⟨rfl, rfl, rfl, rfl, rfl, rfl, rfl, rfl, ?_, ?_⟩ <;>
    intro st <;>
    rcases st with _ | (_ | _ | (_ | c)) <;>
    simp [resolveCmdExit, inspectCmdExit, openCache, inspectCmd, errExit]

/-- C7: Protocol-level error shape — a failing tool call (here: a cache name
absent under the root) is answered with a successful JSON-RPC envelope
(never a JSON-RPC-level error) whose result has `isError: true` and exactly
one `text` content item carrying an `error.code`/`error.message` payload
with the code drawn from the six frozen strings; a missing cache yields
`cache_missing`.  Moreover every `context.resolve` call whatsoever is
answered with a successful envelope that is either a non-error result or
exactly such an error payload. -/
theorem C7_protocol_error_shape (root : List (String × DirState)) (name : String)
    (terms : List String) (budget : Nat)
    (h : lookupCache root name = none) :
    callResolve root name terms budget =
      RpcResponse.success (toolErrorResult ToolErr.cacheMissing
        (errMessage ToolErr.cacheMissing)) ∧
    errCode ToolErr.cacheMissing = "cache_missing" ∧
    (∀ e msg, (toolErrorResult e msg).isError = true ∧
      (toolErrorResult e msg).content =
        [ContentItem.mk "text" (InnerText.errPayload (errCode e) msg)] ∧
      errCode e ∈ frozenCodes) ∧
    (∀ root2 name2 terms2 budget2, ∃ res,
      callResolve root2 name2 terms2 budget2 = RpcResponse.success res ∧
      (res.isError = false ∨ ∃ e msg, res = toolErrorResult e msg)) := by
  refine ⟨by simp [callResolve, h], rfl, ?_, ?_⟩
  · intro e msg
    refine ⟨rfl, rfl, ?_⟩
    cases e <;> simp [errCode, frozenCodes]
  · intro root2 name2 terms2 budget2
    unfold callResolve
    cases lookupCache root2 name2 with
    | none => exact ⟨_, rfl, Or.inr ⟨_, _, rfl⟩⟩
    | some st =>
      dsimp only
      cases openCache st with
      | error e => exact ⟨_, rfl, Or.inr ⟨_, _, rfl⟩⟩
      | ok c => exact ⟨_, rfl, Or.inl rfl⟩

/-- Witness for C7: a concrete root without the requested cache name. -/
theorem C7_protocol_error_shape_witness :
    lookupCache [("minimal", DirState.dirAbsent)] "nonexistent_cache_xyz" = none ∧
    callResolve [("minimal", DirState.dirAbsent)] "nonexistent_cache_xyz" ["test"] 100 =
      RpcResponse.success (toolErrorResult ToolErr.cacheMissing
        (errMessage ToolErr.cacheMissing)) :=
  ⟨by decide,
    (C7_protocol_error_shape [("minimal", DirState.dirAbsent)] "nonexistent_cache_xyz"
      ["test"] 100 (by decide)).1⟩

/-- C8: Inspector tolerance — for any directory that exists and holds a
readable manifest file (even one that is not a valid manifest), `inspect`
succeeds: a corrupt manifest reports `valid = false` with no salvageable
`cache_version`, a well-formed one reports its metadata with `valid = true`;
and `inspect` fails with `CacheMissing` exactly when the directory or the
manifest file is entirely absent. -/
theorem C8_inspect_tolerance :
    (∀ t, ∃ o, inspectCmd (DirState.present (FileState.readable t)) = Except.ok o) ∧
    inspectCmd (DirState.present (FileState.readable ManifestText.malformed)) =
      Except.ok ⟨none, 0, false⟩ ∧
    (∀ c, inspectCmd (DirState.present (FileState.readable (ManifestText.wellFormed c))) =
      Except.ok ⟨some c.manifest.cache_version, c.manifest.document_count, true⟩) ∧
    (∀ st, inspectCmd st = Except.error CacheError.cacheMissing ↔
      st = DirState.dirAbsent ∨ st = DirState.present FileState.fileAbsent) := by
  refine ⟨?_, rfl, fun c => rfl, ?_⟩
  · intro t
    cases t with
    | malformed => exact ⟨_, rfl⟩
    | wellFormed c => exact ⟨_, rfl⟩
  · intro st
    rcases st with _ | (_ | _ | (_ | c)) <;> simp [inspectCmd]

/-- C9: the code, evaluated at the failing input `"a\n\n"` — `canonicalize`
keeps a trailing newline and is not idempotent there, contradicting its own
documentation ("Strips trailing newlines") and the claimed properties. -/
theorem C9_canonicalize_bug :
    canonicalize "a\n\n" = "a\n" ∧
    canonicalize (canonicalize "a\n\n") = "a" ∧
    canonicalize (canonicalize "a\n\n") ≠ canonicalize "a\n\n" := by
  decide

/-- C10 counterexample: `CliOutput::from_output` maps an exit status of `-1`
to `exit_code = -1` even though the process did terminate with an exit code,
so `exit_code = -1` does not hold *exactly* when the code is absent. -/
theorem C10_counterexample :
    (CliOutput.from_output ⟨[], [], some (-1)⟩).exit_code = -1 ∧
    (ProcessOutput.mk [] [] (some (-1))).code ≠ none := by
  decide

/-- C10 (amended): `from_output` always produces a defined `exit_code` — the
child's code when one exists and `-1` when none exists (though `-1` alone
does not imply the code was absent) — and stdout/stderr are lossily decoded
as UTF-8 (invalid bytes become U+FFFD) rather than failing. -/
theorem C10_from_output_total (o : ProcessOutput) :
    (CliOutput.from_output o).exit_code =
      (match o.code with | some c => c | none => -1) ∧
    (CliOutput.from_output o).stdout = utf8Lossy o.stdout ∧
    (CliOutput.from_output o).stderr = utf8Lossy o.stderr ∧
    utf8Lossy [255, 104, 105] = "�hi" := by
  refine ⟨?_, rfl, rfl, by decide⟩
  rcases o with ⟨so, se, c⟩
  cases c <;> rfl
